import Mathlib

/-!
Verification of the usage-analytics aggregation engine of the Learnivia
study-assistant client (src/services/storageService.ts).

The engine is embedded shallowly:
* a `StudyEvent` record mirrors the `StudyEvent` interface of `types.ts`
  (optional numeric fields become `Option Nat`);
* timestamps are naturals counting milliseconds since the epoch, and the
  calendar day of a timestamp is its quotient by `msPerDay`, modelling the
  day identity produced by `Date#toDateString`;
* `calculateEventDuration` and `getUserStats` are direct translations of the
  functions of the same names, with the implicit wall clock (`new Date()`,
  `Date.now()`) replaced by an explicit `now` parameter, `forEach`
  accumulations by `foldl`, the `for` loops of the streak computation by
  structural recursion, and the stable JavaScript `Array.prototype.sort` by
  `List.mergeSort`; the enumeration order of `Object.entries` on the
  topic-count object follows the ECMAScript ordinary-object rule (array-index
  keys first in ascending numeric order, then string keys in creation
  order), modelled by `entriesOrder`;
* `Math.round` on a nonnegative float is modelled exactly on `ℚ` by
  Mathlib's `round` (round half up), and `Math.ceil` on the nonnegative
  rationals of the duration heuristic by the corresponding closed-form
  natural-number divisions.
-/

namespace Learnivia

/-- The closed `ActivityType` enumeration of `types.ts`. -/
inductive ActionType where
  | create_session
  | explain
  | summarize
  | quiz
  | flashcards
  | chat
  | quiz_complete
  | exam_complete
deriving DecidableEq

/-- The `StudyEvent` record of `types.ts` (analytics-relevant fields; the
opaque `id`, `user_id` and `exam_subject` strings play no role in the
aggregation).  Optional numeric fields are `Option Nat`. -/
structure StudyEvent where
  action_type : ActionType
  timestamp : Nat
  text_length : Nat
  topic_keywords : List String
  quiz_total_questions : Option Nat := none
  quiz_correct_answers : Option Nat := none
  exam_score : Option Nat := none
  exam_total_marks : Option Nat := none
deriving DecidableEq

/-- Milliseconds per calendar day. -/
def msPerDay : Nat := 86400000

/-- Calendar-day index of a timestamp (models the day identity of
`new Date(ts).toDateString()`). -/
def dayOf (ts : Nat) : Nat := ts / msPerDay

/-- Narrow weekday label of a day index (models
`toLocaleDateString(en-US, weekday narrow)`; epoch day 0 is a Thursday). -/
def weekdayNarrow (d : Nat) : String :=
  ["T", "F", "S", "S", "M", "T", "W"].getD (d % 7) ""

/-- `(year, month)` of a day index in the proleptic Gregorian calendar
(models `Date#getFullYear` / `Date#getMonth`+1 on the day's timestamp). -/
def civilOf (day : Nat) : Nat × Nat :=
  let z := day + 719468
  let era := z / 146097
  let doe := z % 146097
  let yoe := (doe - doe / 1460 + doe / 36524 - doe / 146096) / 365
  let y := yoe + era * 400
  let doy := doe - (365 * yoe + yoe / 4 - yoe / 100)
  let mp := (5 * doy + 2) / 153
  let m := if mp < 10 then mp + 3 else mp - 9
  (if m ≤ 2 then y + 1 else y, m)

/-- One entry of `lastSevenDays`: narrow weekday label, day identity,
studied flag. -/
structure DayEntry where
  day : String
  date : Nat
  studied : Bool
deriving DecidableEq

/-- One entry of `topTopics`. -/
structure TopicCount where
  topic : String
  count : Nat
deriving DecidableEq

/-- The `UserStats` record of `types.ts`.  Percentages produced by
`Math.round` are integers; `examAverageScore` (one decimal) is a rational. -/
structure UserStats where
  totalSessions : Nat
  sessionsToday : Nat
  sessionsThisWeek : Nat
  sessionsThisMonth : Nat
  totalTimeMinutes : Nat
  studyTimeToday : Nat
  studyTimeThisWeek : Nat
  quizzesGenerated : Nat
  currentStreak : Nat
  longestStreak : Nat
  lastSevenDays : List DayEntry
  quizAccuracy : Int
  totalQuizQuestions : Nat
  totalQuizCorrect : Nat
  totalQuizzesTaken : Nat
  totalExamsTaken : Nat
  examAverageAccuracy : Int
  examAverageScore : Rat
  examBestScore : Nat
  topTopics : List TopicCount

/-- `calculateEventDuration` of `storageService.ts`.  The JavaScript
truthiness tests `event.quiz_total_questions` / `event.exam_total_marks`
hold exactly when the field is present with a nonzero value, i.e. when its
`getD 0` default is nonzero.  `Math.ceil(m * 1.5) = (3*m+1)/2` and
`Math.ceil(len / 500) = (len+499)/500` on naturals. -/
def calculateEventDuration (event : StudyEvent) : Nat :=
  if event.action_type = ActionType.quiz_complete ∧ event.quiz_total_questions.getD 0 ≠ 0 then
    event.quiz_total_questions.getD 0
  else if event.action_type = ActionType.exam_complete ∧ event.exam_total_marks.getD 0 ≠ 0 then
    (3 * event.exam_total_marks.getD 0 + 1) / 2
  else
    1 + (if 0 < event.text_length then (event.text_length + 499) / 500 else 0)
      + (if event.action_type = ActionType.quiz then 2 else 0)

/-- The forward scan of the `longestStreak` loop: `prev` is the previous
distinct day, `temp` the running streak through it, `best` the maximum seen. -/
def streakScan (prev temp best : Nat) : List Nat → Nat
  | [] => best
  | d :: rest =>
    let t := if 2 * (d - prev) ≤ 3 then temp + 1 else 1
    streakScan d t (max best t) rest

/-- `longestStreak` over the ascending list of distinct active days: run the
scan, counting a day as continuing the streak when it is at most 1.5 days
after the previous one. -/
def longestStreakOf : List Nat → Nat
  | [] => 0
  | d :: rest => streakScan d 1 1 rest

/-- The backward walk of the `currentStreak` loop, over the days before the
most recent one, most recent first. -/
def backStreak (curr : Nat) : List Nat → Nat
  | [] => 1
  | p :: rest => if 2 * (curr - p) ≤ 3 then 1 + backStreak p rest else 1

/-- `currentStreak` over the ascending list of distinct active days: zero
unless the most recent active day is `today` or `yesterday`, else the
backward walk from the most recent day. -/
def currentStreakOf (days : List Nat) (today yesterday : Nat) : Nat :=
  match days.reverse with
  | [] => 0
  | lastd :: prevs =>
    if lastd = today ∨ lastd = yesterday then backStreak lastd prevs else 0

/-- `String.prototype.trim`: drop whitespace from both ends, at the level
of the character list. -/
def strTrim (s : String) : String :=
  String.mk (((s.data.dropWhile Char.isWhitespace).reverse.dropWhile Char.isWhitespace).reverse)

/-- `String.prototype.toLowerCase` (ASCII range), at the level of the
character list. -/
def strToLower (s : String) : String :=
  String.mk (s.data.map Char.toLower)

/-- Normalized keyword spelling used by the topic ranking
(`keyword.trim().toLowerCase()`). -/
def normKey (kw : String) : String := strToLower (strTrim kw)

/-- One step of the topic-frequency accumulation: bump the count of key `k`,
appending a fresh `(k, 1)` entry when `k` is new.  This models the contents
of the string-keyed `topicCounts` object together with the creation order
of its keys; the enumeration order used by `Object.entries` is modelled
separately by `entriesOrder`. -/
def bumpTopic (acc : List (String × Nat)) (k : String) : List (String × Nat) :=
  match acc with
  | [] => [(k, 1)]
  | (t, c) :: rest => if t = k then (t, c + 1) :: rest else (t, c) :: bumpTopic rest k

/-- The `topicCounts` accumulation of `getUserStats`: over all events and
all their keywords, trim and lowercase the keyword, skip it when empty, and
bump its count.  The resulting association list carries the object's
key/count pairs in key-creation order; `Object.entries` enumerates them in
the order given by `entriesOrder`. -/
def topicCounts (events : List StudyEvent) : List (String × Nat) :=
  events.foldl (fun acc e =>
    e.topic_keywords.foldl (fun acc2 kw =>
      let k := normKey kw
      if k = "" then acc2 else bumpTopic acc2 k) acc) []

/-- Numeric value of a digit string. -/
def digitsVal (cs : List Char) : Nat :=
  cs.foldl (fun n c => n * 10 + (c.toNat - 48)) 0

/-- Whether a string is an ECMAScript array index: a canonical numeric
string (digits only, no leading zero except for the string `0`) whose value
is below `2^32 - 1`. -/
def isArrayIndex (s : String) : Bool :=
  match s.data with
  | [] => false
  | c :: cs =>
    (c :: cs).all Char.isDigit && (!(c == '0') || cs.isEmpty) &&
      decide (digitsVal (c :: cs) < 4294967295)

/-- Insert an entry into a list of array-index-keyed entries kept in
ascending numeric-key order. -/
def insertNumericKey (p : String × Nat) : List (String × Nat) → List (String × Nat)
  | [] => [p]
  | q :: rest =>
    if digitsVal p.1.data ≤ digitsVal q.1.data then p :: q :: rest
    else q :: insertNumericKey p rest

/-- Sort array-index-keyed entries into ascending numeric-key order. -/
def sortNumericKeys : List (String × Nat) → List (String × Nat)
  | [] => []
  | p :: rest => insertNumericKey p (sortNumericKeys rest)

/-- The enumeration order of `Object.entries` on an ordinary object whose
keys were created in the order of the association list: array-index keys
first, in ascending numeric order, then the remaining string keys in
key-creation order. -/
def entriesOrder (acc : List (String × Nat)) : List (String × Nat) :=
  sortNumericKeys (acc.filter (fun p => isArrayIndex p.1))
    ++ acc.filter (fun p => !(isArrayIndex p.1))

/-- The `uniqueDates` list of `getUserStats`: the distinct calendar days on
which some event occurred, sorted ascending (`Array.from(new Set(dates))`
followed by the ascending sort by date value). -/
def uniqueDaysOf (events : List StudyEvent) : List Nat :=
  ((events.map (fun e => dayOf e.timestamp)).dedup).mergeSort (fun a b => decide (a ≤ b))

/-- `getUserStats` of `storageService.ts`, as a pure function of the event
log and the current time `now` (milliseconds). -/
def getUserStats (events : List StudyEvent) (now : Nat) : UserStats :=
  let todayStr := dayOf now
  let oneWeekAgo : Int := (now : Int) - 7 * 24 * 60 * 60 * 1000
  let sessionCreates := events.filter (fun e => decide (e.action_type = ActionType.create_session))
  let totalSessions := sessionCreates.length
  let sessionsToday :=
    (sessionCreates.filter (fun e => decide (dayOf e.timestamp = todayStr))).length
  let sessionsThisWeek :=
    (sessionCreates.filter (fun e => decide (oneWeekAgo < (e.timestamp : Int)))).length
  let sessionsThisMonth :=
    (sessionCreates.filter (fun e => decide (civilOf (dayOf e.timestamp) = civilOf todayStr))).length
  let totalTimeMinutes : Nat := events.foldl (fun acc e => acc + calculateEventDuration e) 0
  let studyTimeToday : Nat := events.foldl (fun acc e =>
    if dayOf e.timestamp = todayStr then acc + calculateEventDuration e else acc) 0
  let studyTimeThisWeek : Nat := events.foldl (fun acc e =>
    if oneWeekAgo < (e.timestamp : Int) then acc + calculateEventDuration e else acc) 0
  let quizzesGenerated := (events.filter (fun e => decide (e.action_type = ActionType.quiz))).length
  let quizCompletions := events.filter (fun e => decide (e.action_type = ActionType.quiz_complete))
  let totalQuizzesTaken := quizCompletions.length
  let totalQuizQuestions : Nat := quizCompletions.foldl (fun acc q => acc + q.quiz_total_questions.getD 0) 0
  let totalQuizCorrect : Nat := quizCompletions.foldl (fun acc q => acc + q.quiz_correct_answers.getD 0) 0
  let quizAccuracy : Int :=
    if 0 < totalQuizQuestions then
      round (((totalQuizCorrect : ℚ) / (totalQuizQuestions : ℚ)) * 100)
    else 0
  let examCompletions := events.filter (fun e => decide (e.action_type = ActionType.exam_complete))
  let totalExamsTaken := examCompletions.length
  let examTotalScore : Nat := examCompletions.foldl (fun acc e => acc + e.exam_score.getD 0) 0
  let examTotalAccuracySum : ℚ := examCompletions.foldl (fun acc e =>
    let score : Nat := e.exam_score.getD 0
    let total : Nat := if e.exam_total_marks.getD 0 = 0 then 1 else e.exam_total_marks.getD 0
    acc + ((score : ℚ) / (total : ℚ)) * 100) 0
  let examBestScore : Nat := examCompletions.foldl (fun acc e => max acc (e.exam_score.getD 0)) 0
  let examAverageAccuracy : Int :=
    if 0 < totalExamsTaken then round (examTotalAccuracySum / (totalExamsTaken : ℚ)) else 0
  let examAverageScore : ℚ :=
    if 0 < totalExamsTaken then
      (round (((examTotalScore : ℚ) / (totalExamsTaken : ℚ)) * 10) : ℚ) / 10
    else 0
  let uniqueDates := uniqueDaysOf events
  let longestStreak := longestStreakOf uniqueDates
  let yesterdayStr := dayOf (now - msPerDay)
  let currentStreak := currentStreakOf uniqueDates todayStr yesterdayStr
  let lastSevenDays := (List.range 7).map (fun j =>
    let d := todayStr - (6 - j)
    DayEntry.mk (weekdayNarrow d) d (events.any (fun e => decide (dayOf e.timestamp = d))))
  let topTopics :=
    (((entriesOrder (topicCounts events)).map (fun p => TopicCount.mk p.1 p.2)).mergeSort
      (fun a b => decide (b.count ≤ a.count))).take 5
  UserStats.mk totalSessions sessionsToday sessionsThisWeek sessionsThisMonth
    totalTimeMinutes studyTimeToday studyTimeThisWeek quizzesGenerated
    currentStreak longestStreak lastSevenDays quizAccuracy
    totalQuizQuestions totalQuizCorrect totalQuizzesTaken
    totalExamsTaken examAverageAccuracy examAverageScore examBestScore topTopics

/-! ### General helper lemmas -/

lemma foldl_add_map {α : Type} (f : α → Nat) :
    ∀ (l : List α) (n : Nat), l.foldl (fun acc x => acc + f x) n = n + (l.map f).sum := by
  intro l
  induction l with
  | nil => simp
  | cons a l ih =>
    intro n
    simp only [List.foldl_cons, List.map_cons, List.sum_cons, ih]
    omega

lemma foldl_add_mapQ {α : Type} (f : α → ℚ) :
    ∀ (l : List α) (q : ℚ), l.foldl (fun acc x => acc + f x) q = q + (l.map f).sum := by
  intro l
  induction l with
  | nil => simp
  | cons a l ih =>
    intro q
    simp only [List.foldl_cons, List.map_cons, List.sum_cons, ih]
    ring

/-- `Math.round` of the percentage ratio of two naturals, in closed form. -/
lemma round_ratio_eq (c t : Nat) (ht : 0 < t) :
    round (((c : ℚ) / t) * 100) = ((200 * c + t) / (2 * t) : Nat) := by
  rw [round_eq]
  have htq : (t : ℚ) ≠ 0 := Nat.cast_ne_zero.mpr (by omega)
  have h : (c : ℚ) / t * 100 + 1 / 2 = ((200 * c + t : ℕ) : ℚ) / ((2 * t : ℕ) : ℚ) := by
    push_cast
    field_simp
    ring
  rw [h, Rat.floor_natCast_div_natCast]
  rfl

/-- `Math.round` maps `[0, 100]` into `[0, 100]`. -/
lemma round_bound (q : ℚ) (h0 : 0 ≤ q) (h1 : q ≤ 100) : 0 ≤ round q ∧ round q ≤ 100 := by
  constructor
  · rw [round_eq]
    refine Int.le_floor.mpr ?_
    push_cast
    linarith
  · have h2 : (round q : ℚ) ≤ q + 1 / 2 := round_le_add_half q
    have h3 : (round q : ℚ) < 101 := by linarith
    have h4 : round q < 101 := by exact_mod_cast h3
    omega

/-- `Math.ceil(L / 500)` on naturals. -/
lemma ceil_div_500 (L : Nat) : ⌈(L : ℚ) / 500⌉₊ = (L + 499) / 500 := by
  rcases Nat.eq_zero_or_pos L with h | h
  · subst h
    norm_num
  · have hn : (L + 499) / 500 ≠ 0 := by omega
    rw [Nat.ceil_eq_iff hn]
    have h1 : ((L + 499) / 500 - 1) * 500 < L := by omega
    have h2 : L ≤ ((L + 499) / 500) * 500 := by omega
    constructor
    · rw [lt_div_iff₀ (by norm_num : (0 : ℚ) < 500)]
      exact_mod_cast h1
    · rw [div_le_iff₀ (by norm_num : (0 : ℚ) < 500)]
      exact_mod_cast h2

/-- `Math.ceil(m * 1.5)` on naturals. -/
lemma ceil_three_halves (m : Nat) : ⌈(m : ℚ) * (3 / 2)⌉₊ = (3 * m + 1) / 2 := by
  rcases Nat.eq_zero_or_pos m with h | h
  · subst h
    norm_num
  · have hn : (3 * m + 1) / 2 ≠ 0 := by omega
    rw [Nat.ceil_eq_iff hn]
    have hq : (m : ℚ) * (3 / 2) = (3 * m : ℚ) / 2 := by ring
    have h1 : ((3 * m + 1) / 2 - 1) * 2 < 3 * m := by omega
    have h2 : 3 * m ≤ ((3 * m + 1) / 2) * 2 := by omega
    rw [hq]
    constructor
    · rw [lt_div_iff₀ (by norm_num : (0 : ℚ) < 2)]
      exact_mod_cast h1
    · rw [div_le_iff₀ (by norm_num : (0 : ℚ) < 2)]
      exact_mod_cast h2

/-! ### Spec-side formulas for the quiz and exam statistics -/

/-- The sub-log of `quiz_complete` events. -/
def quizCompletionsOf (events : List StudyEvent) : List StudyEvent :=
  events.filter (fun e => decide (e.action_type = ActionType.quiz_complete))

/-- Sum of `quizTotalQuestions` over all `quiz_complete` events, missing
fields contributing 0. -/
def sumQuizTotals (events : List StudyEvent) : Nat :=
  ((quizCompletionsOf events).map (fun q => q.quiz_total_questions.getD 0)).sum

/-- Sum of `quizCorrectAnswers` over all `quiz_complete` events, missing
fields contributing 0. -/
def sumQuizCorrect (events : List StudyEvent) : Nat :=
  ((quizCompletionsOf events).map (fun q => q.quiz_correct_answers.getD 0)).sum

/-- The sub-log of `exam_complete` events. -/
def examCompletionsOf (events : List StudyEvent) : List StudyEvent :=
  events.filter (fun e => decide (e.action_type = ActionType.exam_complete))

/-- Per-exam accuracy percentage, the denominator treated as at least 1. -/
def examAccOf (e : StudyEvent) : ℚ :=
  ((e.exam_score.getD 0 : ℚ) /
    ((if e.exam_total_marks.getD 0 = 0 then 1 else e.exam_total_marks.getD 0 : Nat) : ℚ)) * 100

lemma quizAccuracy_char (events : List StudyEvent) (now : Nat) :
    (getUserStats events now).quizAccuracy =
      if 0 < sumQuizTotals events then
        round (100 * (sumQuizCorrect events : ℚ) / (sumQuizTotals events : ℚ))
      else 0 := by
  have h : (getUserStats events now).quizAccuracy =
      (if 0 < (quizCompletionsOf events).foldl (fun acc q => acc + q.quiz_total_questions.getD 0) 0
       then
        round (((((quizCompletionsOf events).foldl
            (fun acc q => acc + q.quiz_correct_answers.getD 0) 0 : ℕ) : ℚ) /
          (((quizCompletionsOf events).foldl
            (fun acc q => acc + q.quiz_total_questions.getD 0) 0 : ℕ) : ℚ)) * 100)
       else 0) := rfl
  rw [h, foldl_add_map, foldl_add_map]
  simp only [Nat.zero_add]
  have hsum1 : (List.map (fun q => q.quiz_total_questions.getD 0) (quizCompletionsOf events)).sum
      = sumQuizTotals events := rfl
  have hsum2 : (List.map (fun q => q.quiz_correct_answers.getD 0) (quizCompletionsOf events)).sum
      = sumQuizCorrect events := rfl
  rw [hsum1, hsum2]
  congr 1
  · congr 1
    ring

lemma examAverageAccuracy_char (events : List StudyEvent) (now : Nat) :
    (getUserStats events now).examAverageAccuracy =
      if 0 < (examCompletionsOf events).length then
        round ((((examCompletionsOf events).map examAccOf).sum : ℚ) /
          ((examCompletionsOf events).length : ℚ))
      else 0 := by
  have h : (getUserStats events now).examAverageAccuracy =
      (if 0 < (examCompletionsOf events).length then
        round (((examCompletionsOf events).foldl (fun acc e => acc + examAccOf e) 0) /
          (((examCompletionsOf events).length : ℕ) : ℚ))
       else 0) := rfl
  rw [h, foldl_add_mapQ]
  simp only [zero_add]

/-! ### Claims -/

/-- C1: the per-event time contribution is the question count for a
`quiz_complete` event with a known (present, nonzero) question count;
`ceil(totalMarks * 1.5)` for an `exam_complete` event with a known
total-marks value; and for every other event a base of 1, plus
`ceil(textLength / 500)` when `textLength > 0`, plus 2 more when the
action type is `quiz`; and `totalTimeMinutes` is the sum of these
contributions over the whole log. -/
theorem claim_C1 :
    (∀ (e : StudyEvent) (n : Nat), e.action_type = ActionType.quiz_complete →
        e.quiz_total_questions = some n → 0 < n → calculateEventDuration e = n) ∧
    (∀ (e : StudyEvent) (m : Nat), e.action_type = ActionType.exam_complete →
        e.exam_total_marks = some m → 0 < m →
        calculateEventDuration e = ⌈(m : ℚ) * (3 / 2)⌉₊) ∧
    (∀ e : StudyEvent,
        ¬(e.action_type = ActionType.quiz_complete ∧ e.quiz_total_questions.getD 0 ≠ 0) →
        ¬(e.action_type = ActionType.exam_complete ∧ e.exam_total_marks.getD 0 ≠ 0) →
        calculateEventDuration e =
          1 + (if 0 < e.text_length then ⌈(e.text_length : ℚ) / 500⌉₊ else 0)
            + (if e.action_type = ActionType.quiz then 2 else 0)) ∧
    (∀ (events : List StudyEvent) (now : Nat),
        (getUserStats events now).totalTimeMinutes = (events.map calculateEventDuration).sum) := by
  refine ⟨?_, ?_, ?_, ?_⟩
  · intro e n ha hq hn
    simp [calculateEventDuration, ha, hq, Nat.pos_iff_ne_zero.mp hn]
  · intro e m ha hm hmpos
    simp [calculateEventDuration, ha, hm, Nat.pos_iff_ne_zero.mp hmpos, ceil_three_halves]
  · intro e h1 h2
    simp only [calculateEventDuration, if_neg h1, if_neg h2, ceil_div_500]
  · intro events now
    have h : (getUserStats events now).totalTimeMinutes
        = events.foldl (fun acc e => acc + calculateEventDuration e) 0 := rfl
    rw [h, foldl_add_map]
    simp

/-- C1 witness: a `quiz_complete` event with 5 questions contributes 5. -/
theorem claim_C1_witness :
    calculateEventDuration
      (StudyEvent.mk ActionType.quiz_complete 0 0 [] (some 5) (some 4) none none) = 5 :=
  claim_C1.1 _ 5 rfl rfl (by norm_num)

/-- C4: `quizAccuracy` is `round(100 * S_correct / S_total)` over the sums
of the `quiz_complete` fields (missing fields contributing 0), is 0 when
`S_total = 0`, and the two-event example yields 67. -/
theorem claim_C4 :
    (∀ (events : List StudyEvent) (now : Nat),
      (getUserStats events now).quizAccuracy =
        if 0 < sumQuizTotals events then
          round (100 * (sumQuizCorrect events : ℚ) / (sumQuizTotals events : ℚ))
        else 0) ∧
    (∀ (events : List StudyEvent) (now : Nat), sumQuizTotals events = 0 →
      (getUserStats events now).quizAccuracy = 0) ∧
    (∀ now : Nat, (getUserStats
        [StudyEvent.mk ActionType.quiz_complete 0 0 [] (some 5) (some 4) none none,
         StudyEvent.mk ActionType.quiz_complete 0 0 [] (some 10) (some 6) none none]
        now).quizAccuracy = 67) := by
  refine ⟨fun events now => quizAccuracy_char events now, ?_, ?_⟩
  · intro events now h0
    rw [quizAccuracy_char, if_neg (by omega)]
  · intro now
    rw [quizAccuracy_char]
    have h1 : sumQuizTotals
        [StudyEvent.mk ActionType.quiz_complete 0 0 [] (some 5) (some 4) none none,
         StudyEvent.mk ActionType.quiz_complete 0 0 [] (some 10) (some 6) none none] = 15 := rfl
    have h2 : sumQuizCorrect
        [StudyEvent.mk ActionType.quiz_complete 0 0 [] (some 5) (some 4) none none,
         StudyEvent.mk ActionType.quiz_complete 0 0 [] (some 10) (some 6) none none] = 10 := rfl
    rw [h1, h2, if_pos (by norm_num)]
    have harg : (100 : ℚ) * (10 : ℕ) / (15 : ℕ) = ((10 : ℕ) : ℚ) / ((15 : ℕ) : ℚ) * 100 := by
      push_cast
      ring
    rw [harg, round_ratio_eq 10 15 (by norm_num)]
    norm_num

/-- C4 witness: the empty log has `S_total = 0` and accuracy 0. -/
theorem claim_C4_witness : (getUserStats [] 0).quizAccuracy = 0 :=
  claim_C4.2.1 [] 0 rfl

/-- C5 counterexample: a single `quiz_complete` event with nonnegative
fields `quizTotalQuestions = 1`, `quizCorrectAnswers = 2` yields
`quizAccuracy = 200`, outside `[0, 100]`. -/
theorem claim_C5_counterexample :
    (getUserStats [StudyEvent.mk ActionType.quiz_complete 0 0 [] (some 1) (some 2) none none]
        0).quizAccuracy = 200 ∧
    ¬((getUserStats [StudyEvent.mk ActionType.quiz_complete 0 0 [] (some 1) (some 2) none none]
        0).quizAccuracy ≤ 100) := by
  have h : (getUserStats
      [StudyEvent.mk ActionType.quiz_complete 0 0 [] (some 1) (some 2) none none]
      0).quizAccuracy = 200 := by
    rw [quizAccuracy_char]
    have h1 : sumQuizTotals
        [StudyEvent.mk ActionType.quiz_complete 0 0 [] (some 1) (some 2) none none] = 1 := rfl
    have h2 : sumQuizCorrect
        [StudyEvent.mk ActionType.quiz_complete 0 0 [] (some 1) (some 2) none none] = 2 := rfl
    rw [h1, h2, if_pos (by norm_num)]
    have harg : (100 : ℚ) * ((2 : ℕ) : ℚ) / ((1 : ℕ) : ℚ) = ((2 : ℕ) : ℚ) / ((1 : ℕ) : ℚ) * 100 := by
      push_cast
      ring
    rw [harg, round_ratio_eq 2 1 (by norm_num)]
    norm_num
  refine ⟨h, by omega⟩

/-- C5 (amended): the accuracies lie in `[0, 100]` provided each
`quiz_complete` event reports at most as many correct answers as questions
and each `exam_complete` event reports a score at most its effective total
marks (the total treated as 1 when absent or 0); the computation is total
in every case. -/
theorem claim_C5_amended :
    ∀ (events : List StudyEvent) (now : Nat),
      (∀ e ∈ events, e.quiz_correct_answers.getD 0 ≤ e.quiz_total_questions.getD 0) →
      (∀ e ∈ events, e.exam_score.getD 0 ≤
        (if e.exam_total_marks.getD 0 = 0 then 1 else e.exam_total_marks.getD 0)) →
      (0 ≤ (getUserStats events now).quizAccuracy ∧
        (getUserStats events now).quizAccuracy ≤ 100) ∧
      (0 ≤ (getUserStats events now).examAverageAccuracy ∧
        (getUserStats events now).examAverageAccuracy ≤ 100) := by
  intro events now hq he
  constructor
  · rw [quizAccuracy_char]
    by_cases h0 : 0 < sumQuizTotals events
    · rw [if_pos h0]
      have hle : sumQuizCorrect events ≤ sumQuizTotals events := by
        have h1 : sumQuizCorrect events
            = ((quizCompletionsOf events).map (fun q => q.quiz_correct_answers.getD 0)).sum := rfl
        have h2 : sumQuizTotals events
            = ((quizCompletionsOf events).map (fun q => q.quiz_total_questions.getD 0)).sum := rfl
        rw [h1, h2]
        refine List.sum_le_sum ?_
        intro q hqmem
        exact hq q (List.mem_of_mem_filter hqmem)
      have hpos : (0 : ℚ) < (sumQuizTotals events : ℚ) := by exact_mod_cast h0
      have hcast : (sumQuizCorrect events : ℚ) ≤ (sumQuizTotals events : ℚ) := by
        exact_mod_cast hle
      refine round_bound _ (by positivity) ?_
      rw [div_le_iff₀ hpos]
      linarith
    · rw [if_neg h0]
      norm_num
  · rw [examAverageAccuracy_char]
    by_cases h0 : 0 < (examCompletionsOf events).length
    · rw [if_pos h0]
      have hmem : ∀ e ∈ examCompletionsOf events, (0 : ℚ) ≤ examAccOf e ∧ examAccOf e ≤ 100 := by
        intro e hm
        have hsc := he e (List.mem_of_mem_filter hm)
        have htpos : 0 < (if e.exam_total_marks.getD 0 = 0 then 1 else e.exam_total_marks.getD 0) := by
          split <;> omega
        have htq : (0 : ℚ) <
            ((if e.exam_total_marks.getD 0 = 0 then 1 else e.exam_total_marks.getD 0 : ℕ) : ℚ) := by
          exact_mod_cast htpos
        constructor
        · unfold examAccOf
          positivity
        · unfold examAccOf
          rw [div_mul_eq_mul_div, div_le_iff₀ htq]
          have hscq : ((e.exam_score.getD 0 : ℕ) : ℚ) ≤
              ((if e.exam_total_marks.getD 0 = 0 then 1 else e.exam_total_marks.getD 0 : ℕ) : ℚ) := by
            exact_mod_cast hsc
          linarith
      have hsum0 : (0 : ℚ) ≤ ((examCompletionsOf events).map examAccOf).sum := by
        refine List.sum_nonneg ?_
        intro x hx
        simp only [List.mem_map] at hx
        obtain ⟨e, he2, rfl⟩ := hx
        exact (hmem e he2).1
      have hsumle : ((examCompletionsOf events).map examAccOf).sum
          ≤ ((examCompletionsOf events).length : ℚ) * 100 := by
        have h := List.sum_le_card_nsmul ((examCompletionsOf events).map examAccOf) 100 ?_
        · simpa [List.length_map, nsmul_eq_mul] using h
        · intro x hx
          simp only [List.mem_map] at hx
          obtain ⟨e, he2, rfl⟩ := hx
          exact (hmem e he2).2
      have hlpos : (0 : ℚ) < ((examCompletionsOf events).length : ℚ) := by exact_mod_cast h0
      refine round_bound _ (by positivity) ?_
      rw [div_le_iff₀ hlpos]
      linarith
    · rw [if_neg h0]
      norm_num

/-- C5 witness: on the empty log both accuracy bounds hold. -/
theorem claim_C5_witness :
    (0 ≤ (getUserStats [] 0).quizAccuracy ∧ (getUserStats [] 0).quizAccuracy ≤ 100) ∧
    (0 ≤ (getUserStats [] 0).examAverageAccuracy ∧
      (getUserStats [] 0).examAverageAccuracy ≤ 100) :=
  claim_C5_amended [] 0 (by simp) (by simp)

/-- C6 counterexample: a `create_session` event with a timestamp far in the
future of `now` is still counted by `sessionsThisWeek` (the code checks only
the lower bound of the window), while the claimed two-sided window
`now - 7×24h < t ≤ now` contains no event of the log. -/
theorem claim_C6_counterexample :
    (getUserStats [StudyEvent.mk ActionType.create_session 86400000000 0 [] none none none none]
        0).sessionsThisWeek = 1 ∧
    ([StudyEvent.mk ActionType.create_session 86400000000 0 [] none none none none].filter
      (fun e => decide (e.action_type = ActionType.create_session ∧
        (0 : ℤ) - 7 * 24 * 60 * 60 * 1000 < (e.timestamp : ℤ) ∧ e.timestamp ≤ 0))).length = 0 :=
  ⟨rfl, rfl⟩

/-- C6 (amended): `sessionsThisWeek` counts exactly the `create_session`
events with `now - 7×24h < timestamp`, with no upper bound at `now`; when
every timestamp of the log is at most `now` this coincides with the claimed
trailing window `now - 7×24h < timestamp ≤ now`. -/
theorem claim_C6_amended :
    ∀ (events : List StudyEvent) (now : Nat),
      ((getUserStats events now).sessionsThisWeek =
        (events.filter (fun e => decide (e.action_type = ActionType.create_session ∧
          (now : ℤ) - 7 * 24 * 60 * 60 * 1000 < (e.timestamp : ℤ)))).length) ∧
      ((∀ e ∈ events, e.timestamp ≤ now) →
        (getUserStats events now).sessionsThisWeek =
          (events.filter (fun e => decide (e.action_type = ActionType.create_session ∧
            (now : ℤ) - 7 * 24 * 60 * 60 * 1000 < (e.timestamp : ℤ) ∧ e.timestamp ≤ now))).length) := by
  intro events now
  have hbase : (getUserStats events now).sessionsThisWeek =
      (events.filter (fun e => decide (e.action_type = ActionType.create_session ∧
        (now : ℤ) - 7 * 24 * 60 * 60 * 1000 < (e.timestamp : ℤ)))).length := by
    have h : (getUserStats events now).sessionsThisWeek =
        ((events.filter (fun e => decide (e.action_type = ActionType.create_session))).filter
          (fun e => decide ((now : ℤ) - 7 * 24 * 60 * 60 * 1000 < (e.timestamp : ℤ)))).length := rfl
    rw [h, List.filter_filter]
    congr 1
    refine List.filter_congr ?_
    intro e _
    rcases Decidable.em (e.action_type = ActionType.create_session) with h1 | h1 <;>
      rcases Decidable.em ((now : ℤ) - 7 * 24 * 60 * 60 * 1000 < (e.timestamp : ℤ)) with h2 | h2 <;>
      simp [h1, h2]
  refine ⟨hbase, ?_⟩
  intro hts
  rw [hbase]
  congr 1
  refine List.filter_congr ?_
  intro e hmem
  have hte := hts e hmem
  rcases Decidable.em (e.action_type = ActionType.create_session) with h1 | h1 <;>
    rcases Decidable.em ((now : ℤ) - 7 * 24 * 60 * 60 * 1000 < (e.timestamp : ℤ)) with h2 | h2 <;>
    simp [h1, h2, hte]

/-- C6 witness: on the empty log the amended window count is 0 under the
vacuously true timestamp bound. -/
theorem claim_C6_witness :
    (getUserStats [] 0).sessionsThisWeek =
      (([] : List StudyEvent).filter (fun e => decide (e.action_type = ActionType.create_session ∧
        ((0 : ℕ) : ℤ) - 7 * 24 * 60 * 60 * 1000 < (e.timestamp : ℤ) ∧ e.timestamp ≤ 0))).length :=
  (claim_C6_amended [] 0).2 (by simp)

/-- The distinct-day list of the log determines `uniqueDaysOf`: any sorted
list that the deduplicated day list permutes to is the `uniqueDates` value. -/
lemma uniqueDaysOf_eq (events : List StudyEvent) (l : List Nat)
    (hs : List.Sorted (· ≤ ·) l)
    (hp : ((events.map (fun e => dayOf e.timestamp)).dedup).Perm l) :
    uniqueDaysOf events = l := by
  have htrans : ∀ (a b c : Nat), (decide (a ≤ b)) = true → (decide (b ≤ c)) = true →
      (decide (a ≤ c)) = true := by
    intro a b c hab hbc
    simp only [decide_eq_true_eq] at *
    omega
  have htotal : ∀ (a b : Nat), ((decide (a ≤ b)) || (decide (b ≤ a))) = true := by
    intro a b
    simp only [Bool.or_eq_true, decide_eq_true_eq]
    omega
  have hperm : (uniqueDaysOf events).Perm l := by
    unfold uniqueDaysOf
    exact (List.mergeSort_perm _ _).trans hp
  have hsorted : List.Sorted (· ≤ ·) (uniqueDaysOf events) := by
    unfold uniqueDaysOf
    have h := @List.sorted_mergeSort Nat (fun a b => decide (a ≤ b)) htrans htotal
      ((events.map (fun e => dayOf e.timestamp)).dedup)
    exact h.imp (fun hab => of_decide_eq_true hab)
  exact List.eq_of_perm_of_sorted hperm hsorted hs

/-- C2: `longestStreak` is the maximum running count over the ascending
distinct-day list, the counter incrementing across gaps of at most 1.5 days
and resetting on larger gaps; for a log active exactly on days `D`, `D+1`,
`D+2` and `D+4`, with `now` on day `D+4`, it equals 3. -/
theorem claim_C2 :
    (∀ (events : List StudyEvent) (now : Nat),
      (getUserStats events now).longestStreak = longestStreakOf (uniqueDaysOf events)) ∧
    (∀ (D : Nat) (events : List StudyEvent) (now : Nat),
      ((events.map (fun e => dayOf e.timestamp)).dedup).Perm [D, D + 1, D + 2, D + 4] →
      dayOf now = D + 4 →
      (getUserStats events now).longestStreak = 3) := by
  constructor
  · intro events now
    rfl
  · intro D events now hp hnow
    have hu : uniqueDaysOf events = [D, D + 1, D + 2, D + 4] := by
      refine uniqueDaysOf_eq events _ ?_ hp
      simp [List.sorted_cons, List.forall_mem_cons]
    have h1 : (getUserStats events now).longestStreak = longestStreakOf (uniqueDaysOf events) := rfl
    rw [h1, hu]
    have e1 : D + 1 - D = 1 := by omega
    have e2 : D + 2 - (D + 1) = 1 := by omega
    have e3 : D + 4 - (D + 2) = 2 := by omega
    simp [longestStreakOf, streakScan, e1, e2, e3]

/-- C3: `currentStreak` is 0 when the most recent active day is neither
today nor yesterday; otherwise it is the backward walk from the end of the
sorted distinct-day list counting gaps of at most 1.5 days; days `D-1` and
`D` with `now` on day `D` give 2; days `D, D+1, D+2, D+4` with `now` on day
`D+4` give 1. -/
theorem claim_C3 :
    (∀ (events : List StudyEvent) (now : Nat) (lastd : Nat) (prevs : List Nat),
      (uniqueDaysOf events).reverse = lastd :: prevs →
      lastd ≠ dayOf now → lastd ≠ dayOf (now - msPerDay) →
      (getUserStats events now).currentStreak = 0) ∧
    (∀ (events : List StudyEvent) (now : Nat) (lastd : Nat) (prevs : List Nat),
      (uniqueDaysOf events).reverse = lastd :: prevs →
      (lastd = dayOf now ∨ lastd = dayOf (now - msPerDay)) →
      (getUserStats events now).currentStreak = backStreak lastd prevs) ∧
    (∀ (D : Nat) (events : List StudyEvent) (now : Nat), 1 ≤ D →
      ((events.map (fun e => dayOf e.timestamp)).dedup).Perm [D - 1, D] →
      dayOf now = D →
      (getUserStats events now).currentStreak = 2) ∧
    (∀ (D : Nat) (events : List StudyEvent) (now : Nat),
      ((events.map (fun e => dayOf e.timestamp)).dedup).Perm [D, D + 1, D + 2, D + 4] →
      dayOf now = D + 4 →
      (getUserStats events now).currentStreak = 1) := by
  have hchar : ∀ (events : List StudyEvent) (now : Nat),
      (getUserStats events now).currentStreak
        = currentStreakOf (uniqueDaysOf events) (dayOf now) (dayOf (now - msPerDay)) :=
    fun events now => rfl
  refine ⟨?_, ?_, ?_, ?_⟩
  · intro events now lastd prevs hrev hne1 hne2
    rw [hchar]
    unfold currentStreakOf
    rw [hrev]
    simp [hne1, hne2]
  · intro events now lastd prevs hrev hor
    rw [hchar]
    unfold currentStreakOf
    rw [hrev]
    simp only [if_pos hor]
  · intro D events now hD hp hnow
    have hu : uniqueDaysOf events = [D - 1, D] := by
      refine uniqueDaysOf_eq events _ ?_ hp
      simp [List.sorted_cons, List.forall_mem_cons]
    rw [hchar]
    unfold currentStreakOf
    rw [hu]
    have hrev : ([D - 1, D] : List Nat).reverse = [D, D - 1] := rfl
    rw [hrev]
    simp only [if_pos (Or.inl hnow.symm)]
    have hsub : D - (D - 1) = 1 := by omega
    simp [backStreak, hsub]
  · intro D events now hp hnow
    have hu : uniqueDaysOf events = [D, D + 1, D + 2, D + 4] := by
      refine uniqueDaysOf_eq events _ ?_ hp
      simp [List.sorted_cons, List.forall_mem_cons]
    rw [hchar]
    unfold currentStreakOf
    rw [hu]
    have hrev : ([D, D + 1, D + 2, D + 4] : List Nat).reverse = [D + 4, D + 2, D + 1, D] := rfl
    rw [hrev]
    simp only [if_pos (Or.inl hnow.symm)]
    have hsub : D + 4 - (D + 2) = 2 := by omega
    simp [backStreak, hsub]

/-- C3 witness: events on days 99 and 100 with `now` on day 100 give a
current streak of 2. -/
theorem claim_C3_witness :
    (getUserStats
      [StudyEvent.mk ActionType.chat (99 * msPerDay) 0 [] none none none none,
       StudyEvent.mk ActionType.chat (100 * msPerDay) 0 [] none none none none]
      (100 * msPerDay)).currentStreak = 2 :=
  claim_C3.2.2.1 100 _ _ (by norm_num) (by decide) (by decide)

/-- C2 witness: four events on days 100, 101, 102 and 104 with `now` on
day 104 give a longest streak of 3. -/
theorem claim_C2_witness :
    (getUserStats
      [StudyEvent.mk ActionType.explain (100 * msPerDay) 0 [] none none none none,
       StudyEvent.mk ActionType.explain (101 * msPerDay) 0 [] none none none none,
       StudyEvent.mk ActionType.explain (102 * msPerDay) 0 [] none none none none,
       StudyEvent.mk ActionType.explain (104 * msPerDay) 0 [] none none none none]
      (104 * msPerDay)).longestStreak = 3 :=
  claim_C2.2 100 _ _ (by decide) (by decide)

/-- C7: on the empty log every count, time estimate, quiz and exam
statistic and both streaks are zero, the 7-entry calendar has `studied`
false everywhere, and `topTopics` is empty. -/
theorem claim_C7 :
    ∀ now : Nat,
      (getUserStats [] now).totalSessions = 0 ∧
      (getUserStats [] now).sessionsToday = 0 ∧
      (getUserStats [] now).sessionsThisWeek = 0 ∧
      (getUserStats [] now).sessionsThisMonth = 0 ∧
      (getUserStats [] now).totalTimeMinutes = 0 ∧
      (getUserStats [] now).studyTimeToday = 0 ∧
      (getUserStats [] now).studyTimeThisWeek = 0 ∧
      (getUserStats [] now).quizzesGenerated = 0 ∧
      (getUserStats [] now).totalQuizzesTaken = 0 ∧
      (getUserStats [] now).totalQuizQuestions = 0 ∧
      (getUserStats [] now).totalQuizCorrect = 0 ∧
      (getUserStats [] now).quizAccuracy = 0 ∧
      (getUserStats [] now).totalExamsTaken = 0 ∧
      (getUserStats [] now).examAverageAccuracy = 0 ∧
      (getUserStats [] now).examAverageScore = 0 ∧
      (getUserStats [] now).examBestScore = 0 ∧
      (getUserStats [] now).currentStreak = 0 ∧
      (getUserStats [] now).longestStreak = 0 ∧
      (getUserStats [] now).lastSevenDays.length = 7 ∧
      (∀ d ∈ (getUserStats [] now).lastSevenDays, d.studied = false) ∧
      (getUserStats [] now).topTopics = [] := by
  intro now
  have hdays : uniqueDaysOf ([] : List StudyEvent) = [] := by
    simp [uniqueDaysOf]
  have hcur : (getUserStats [] now).currentStreak
      = currentStreakOf (uniqueDaysOf []) (dayOf now) (dayOf (now - msPerDay)) := rfl
  have hlong : (getUserStats [] now).longestStreak = longestStreakOf (uniqueDaysOf []) := rfl
  have htop : (getUserStats [] now).topTopics
      = (((entriesOrder (topicCounts [])).map (fun p => TopicCount.mk p.1 p.2)).mergeSort
          (fun a b => decide (b.count ≤ a.count))).take 5 := rfl
  refine ⟨rfl, rfl, rfl, rfl, rfl, rfl, rfl, rfl, rfl, rfl, rfl, rfl, rfl, rfl, rfl, rfl,
    ?_, ?_, rfl, ?_, ?_⟩
  · rw [hcur, hdays]
    rfl
  · rw [hlong, hdays]
    rfl
  · intro d hd
    have h : (getUserStats [] now).lastSevenDays
        = (List.range 7).map (fun j =>
            DayEntry.mk (weekdayNarrow (dayOf now - (6 - j))) (dayOf now - (6 - j)) false) := rfl
    rw [h] at hd
    simp only [List.mem_map] at hd
    obtain ⟨j, hj, rfl⟩ := hd
    rfl
  · rw [htop]
    have h : entriesOrder (topicCounts []) = [] := rfl
    rw [h]
    simp

/-- C7 witness: at `now = 0` the empty log yields zero sessions. -/
theorem claim_C7_witness : (getUserStats [] 0).totalSessions = 0 :=
  (claim_C7 0).1

/-- C8: `lastSevenDays` always has exactly 7 entries, the entry at index
`j` covering calendar day `now - 6 + j` with `studied` set exactly when
some event fell on that day, and the last entry's date is today's day. -/
theorem claim_C8 :
    ∀ (events : List StudyEvent) (now : Nat), 6 ≤ dayOf now →
      ((getUserStats events now).lastSevenDays.length = 7) ∧
      (∀ j, j < 7 →
        ((getUserStats events now).lastSevenDays.getD j (DayEntry.mk "" 0 false)).date
          = dayOf now - 6 + j ∧
        (((getUserStats events now).lastSevenDays.getD j (DayEntry.mk "" 0 false)).studied = true
          ↔ ∃ e ∈ events, dayOf e.timestamp = dayOf now - 6 + j)) ∧
      (((getUserStats events now).lastSevenDays.getLast?).map DayEntry.date
        = some (dayOf now)) := by
  intro events now h6
  have h : (getUserStats events now).lastSevenDays
      = (List.range 7).map (fun j =>
          DayEntry.mk (weekdayNarrow (dayOf now - (6 - j))) (dayOf now - (6 - j))
            (events.any (fun e => decide (dayOf e.timestamp = dayOf now - (6 - j))))) := rfl
  refine ⟨by rw [h]; simp, ?_, ?_⟩
  · intro j hj
    have harith : dayOf now - (6 - j) = dayOf now - 6 + j := by omega
    rw [h]
    simp [List.getD_eq_getElem?_getD, List.getElem?_map, List.getElem?_range, hj, harith,
      List.any_eq_true]
  · rw [h]
    have hlast : ((List.range 7).map (fun j =>
        DayEntry.mk (weekdayNarrow (dayOf now - (6 - j))) (dayOf now - (6 - j))
          (events.any (fun e => decide (dayOf e.timestamp = dayOf now - (6 - j)))))).getLast?
        = some (DayEntry.mk (weekdayNarrow (dayOf now - (6 - 6))) (dayOf now - (6 - 6))
            (events.any (fun e => decide (dayOf e.timestamp = dayOf now - (6 - 6))))) := rfl
    rw [hlast]
    simp

/-- C8 witness: with the empty log and `now` on day 7, the calendar has 7
entries. -/
theorem claim_C8_witness :
    (getUserStats [] (7 * msPerDay)).lastSevenDays.length = 7 :=
  (claim_C8 [] (7 * msPerDay) (by decide)).1

/-- C9: appending one `create_session` event on today's calendar day
increments `sessionsToday` and `totalSessions` by exactly 1 and leaves the
calendar entries of the six earlier days unchanged. -/
theorem claim_C9 :
    ∀ (events : List StudyEvent) (now : Nat) (e : StudyEvent),
      e.action_type = ActionType.create_session →
      dayOf e.timestamp = dayOf now →
      6 ≤ dayOf now →
      ((getUserStats (events ++ [e]) now).sessionsToday
        = (getUserStats events now).sessionsToday + 1) ∧
      ((getUserStats (events ++ [e]) now).totalSessions
        = (getUserStats events now).totalSessions + 1) ∧
      (∀ j, j < 6 →
        (getUserStats (events ++ [e]) now).lastSevenDays.getD j (DayEntry.mk "" 0 false)
          = (getUserStats events now).lastSevenDays.getD j (DayEntry.mk "" 0 false)) := by
  intro events now e ha hd h6
  refine ⟨?_, ?_, ?_⟩
  · have h1 : ∀ evs : List StudyEvent, (getUserStats evs now).sessionsToday
        = ((evs.filter (fun x => decide (x.action_type = ActionType.create_session))).filter
            (fun x => decide (dayOf x.timestamp = dayOf now))).length := fun evs => rfl
    rw [h1, h1, List.filter_append, List.filter_append]
    simp [ha, hd]
  · have h1 : ∀ evs : List StudyEvent, (getUserStats evs now).totalSessions
        = (evs.filter (fun x => decide (x.action_type = ActionType.create_session))).length :=
      fun evs => rfl
    rw [h1, h1, List.filter_append]
    simp [ha]
  · intro j hj
    have hj7 : j < 7 := by omega
    have h : ∀ evs : List StudyEvent, (getUserStats evs now).lastSevenDays
        = (List.range 7).map (fun i =>
            DayEntry.mk (weekdayNarrow (dayOf now - (6 - i))) (dayOf now - (6 - i))
              (evs.any (fun x => decide (dayOf x.timestamp = dayOf now - (6 - i))))) :=
      fun evs => rfl
    rw [h, h]
    have hne : ¬(dayOf e.timestamp = dayOf now - (6 - j)) := by
      rw [hd]
      omega
    simp only [List.getD_eq_getElem?_getD, List.getElem?_map, List.getElem?_range, hj7,
      Option.map_some, Option.getD_some, List.any_append]
    simp [hne]

/-- C9 witness: appending one `create_session` event on day 7 to the empty
log at `now` on day 7 yields `sessionsToday = 0 + 1`. -/
theorem claim_C9_witness :
    (getUserStats ([] ++ [StudyEvent.mk ActionType.create_session (7 * msPerDay) 0 []
        none none none none]) (7 * msPerDay)).sessionsToday
      = (getUserStats [] (7 * msPerDay)).sessionsToday + 1 :=
  (claim_C9 [] (7 * msPerDay)
    (StudyEvent.mk ActionType.create_session (7 * msPerDay) 0 [] none none none none)
    rfl (by decide) (by decide)).1

/-! ### Topic-ranking machinery (C10) -/

/-- All normalized, non-empty keywords of the log, in input order. -/
def flatKeys (events : List StudyEvent) : List String :=
  events.flatMap (fun e => (e.topic_keywords.map normKey).filter (fun k => decide (k ≠ "")))

/-- The distinct normalized keywords in first-seen order. -/
def firstSeenKeys (events : List StudyEvent) : List String :=
  (flatKeys events).foldl (fun ks k => if k ∈ ks then ks else ks ++ [k]) []

/-- Total accumulated count stored for key `k` in the accumulator. -/
def keyCount (acc : List (String × Nat)) (k : String) : Nat :=
  ((acc.filter (fun p => decide (p.1 = k))).map Prod.snd).sum

lemma keyCount_cons (t : String) (c : Nat) (xs : List (String × Nat)) (j : String) :
    keyCount ((t, c) :: xs) j = (if t = j then c else 0) + keyCount xs j := by
  by_cases h : t = j <;> simp [keyCount, h]

lemma bump_keys (acc : List (String × Nat)) (k : String) :
    (bumpTopic acc k).map Prod.fst =
      if k ∈ acc.map Prod.fst then acc.map Prod.fst else acc.map Prod.fst ++ [k] := by
  induction acc with
  | nil => simp [bumpTopic]
  | cons p rest ih =>
    obtain ⟨t, c⟩ := p
    by_cases h : t = k
    · simp [bumpTopic, h]
    · by_cases hm : k ∈ rest.map Prod.fst <;>
        simp [bumpTopic, h, ih, hm, Ne.symm h]

lemma fold_bump_keys :
    ∀ (l : List String) (acc : List (String × Nat)),
      (l.foldl bumpTopic acc).map Prod.fst
        = l.foldl (fun ks k => if k ∈ ks then ks else ks ++ [k]) (acc.map Prod.fst) := by
  intro l
  induction l with
  | nil => intro acc; rfl
  | cons k l ih =>
    intro acc
    rw [List.foldl_cons, List.foldl_cons, ih, bump_keys]

lemma keyCount_bump (acc : List (String × Nat)) (k j : String) :
    keyCount (bumpTopic acc k) j = keyCount acc j + (if j = k then 1 else 0) := by
  induction acc with
  | nil =>
    by_cases h : j = k
    · subst h
      simp [bumpTopic, keyCount_cons, keyCount]
    · have hk : ¬(k = j) := fun hh => h hh.symm
      simp [bumpTopic, keyCount, hk, h]
  | cons p rest ih =>
    obtain ⟨t, c⟩ := p
    by_cases htk : t = k
    · subst htk
      have hb : bumpTopic ((t, c) :: rest) t = (t, c + 1) :: rest := by
        simp [bumpTopic]
      rw [hb, keyCount_cons, keyCount_cons]
      by_cases hj : t = j
      · rw [if_pos hj, if_pos hj, if_pos hj.symm]
        omega
      · rw [if_neg hj, if_neg hj, if_neg (fun hh => hj hh.symm)]
        omega
    · simp only [bumpTopic, if_neg htk, keyCount_cons, ih]
      omega

lemma keyCount_fold (l : List String) :
    ∀ (acc : List (String × Nat)) (j : String),
      keyCount (l.foldl bumpTopic acc) j = keyCount acc j + l.count j := by
  induction l with
  | nil => simp
  | cons k l ih =>
    intro acc j
    rw [List.foldl_cons, ih, keyCount_bump, List.count_cons]
    by_cases h : j = k
    · subst h
      simp only [beq_iff_eq, if_pos rfl]
      omega
    · have h2 : ¬(k = j) := fun hh => h hh.symm
      simp only [beq_iff_eq, if_neg h, if_neg h2]
      omega

lemma nodup_firstSeen_fold (l : List String) :
    ∀ ks : List String, ks.Nodup →
      (l.foldl (fun ks k => if k ∈ ks then ks else ks ++ [k]) ks).Nodup := by
  induction l with
  | nil => intro ks h; exact h
  | cons k l ih =>
    intro ks h
    rw [List.foldl_cons]
    by_cases hm : k ∈ ks
    · rw [if_pos hm]
      exact ih ks h
    · rw [if_neg hm]
      refine ih _ ?_
      simp [List.nodup_append, h, hm]

lemma keyCount_eq_zero_of_not_mem (acc : List (String × Nat)) (k : String)
    (h : k ∉ acc.map Prod.fst) : keyCount acc k = 0 := by
  induction acc with
  | nil => rfl
  | cons p rest ih =>
    obtain ⟨t, c⟩ := p
    simp only [List.map_cons, List.mem_cons] at h
    push_neg at h
    rw [keyCount_cons, if_neg (fun hh => h.1 hh.symm)]
    simpa using ih h.2

lemma keyCount_eq_of_mem (acc : List (String × Nat)) (hnd : (acc.map Prod.fst).Nodup)
    (p : String × Nat) (hp : p ∈ acc) : keyCount acc p.1 = p.2 := by
  induction acc with
  | nil => cases hp
  | cons q rest ih =>
    obtain ⟨t, c⟩ := q
    simp only [List.map_cons, List.nodup_cons] at hnd
    rcases List.mem_cons.mp hp with rfl | hp2
    · rw [keyCount_cons, if_pos rfl,
        keyCount_eq_zero_of_not_mem rest t hnd.1]
      simp
    · have ht : t ≠ p.1 := by
        intro hh
        exact hnd.1 (hh ▸ List.mem_map_of_mem Prod.fst hp2)
      rw [keyCount_cons, if_neg ht, ih hnd.2 hp2]
      simp

lemma inner_fold (kws : List String) :
    ∀ acc : List (String × Nat),
      kws.foldl (fun acc2 kw =>
          let k := normKey kw
          if k = "" then acc2 else bumpTopic acc2 k) acc
        = ((kws.map normKey).filter (fun k => decide (k ≠ ""))).foldl bumpTopic acc := by
  induction kws with
  | nil => intro acc; rfl
  | cons kw kws ih =>
    intro acc
    by_cases h : normKey kw = "" <;>
      simp [h, ih]

lemma topicCounts_eq (events : List StudyEvent) :
    topicCounts events = (flatKeys events).foldl bumpTopic [] := by
  suffices h : ∀ (evs : List StudyEvent) (acc : List (String × Nat)),
      evs.foldl (fun acc e =>
          e.topic_keywords.foldl (fun acc2 kw =>
            let k := normKey kw
            if k = "" then acc2 else bumpTopic acc2 k) acc) acc
        = (evs.flatMap (fun e =>
            (e.topic_keywords.map normKey).filter (fun k => decide (k ≠ "")))).foldl
            bumpTopic acc by
    exact h events []
  intro evs
  induction evs with
  | nil => intro acc; rfl
  | cons e evs ih =>
    intro acc
    rw [List.foldl_cons, List.flatMap_cons, List.foldl_append, ih, inner_fold]

lemma insertNumericKey_perm (p : String × Nat) (l : List (String × Nat)) :
    (insertNumericKey p l).Perm (p :: l) := by
  induction l with
  | nil => exact List.Perm.refl _
  | cons q rest ih =>
    simp only [insertNumericKey]
    by_cases h : digitsVal p.1.data ≤ digitsVal q.1.data
    · rw [if_pos h]
    · rw [if_neg h]
      exact (ih.cons q).trans (List.Perm.swap p q rest)

lemma sortNumericKeys_perm (l : List (String × Nat)) : (sortNumericKeys l).Perm l := by
  induction l with
  | nil => exact List.Perm.refl _
  | cons p rest ih =>
    simp only [sortNumericKeys]
    exact (insertNumericKey_perm p (sortNumericKeys rest)).trans (ih.cons p)

lemma insertNumericKey_sorted (p : String × Nat) (l : List (String × Nat))
    (hs : List.Sorted (fun a b : String × Nat => digitsVal a.1.data ≤ digitsVal b.1.data) l) :
    List.Sorted (fun a b : String × Nat => digitsVal a.1.data ≤ digitsVal b.1.data)
      (insertNumericKey p l) := by
  induction l with
  | nil => simp [insertNumericKey]
  | cons q rest ih =>
    rw [List.sorted_cons] at hs
    simp only [insertNumericKey]
    by_cases h : digitsVal p.1.data ≤ digitsVal q.1.data
    · rw [if_pos h, List.sorted_cons]
      refine ⟨?_, List.sorted_cons.mpr hs⟩
      intro b hb
      rcases List.mem_cons.mp hb with rfl | hb2
      · exact h
      · exact le_trans h (hs.1 b hb2)
    · rw [if_neg h, List.sorted_cons]
      refine ⟨?_, ih hs.2⟩
      intro b hb
      have hmem := (insertNumericKey_perm p rest).mem_iff.mp hb
      rcases List.mem_cons.mp hmem with rfl | hb2
      · omega
      · exact hs.1 b hb2

lemma sortNumericKeys_sorted (l : List (String × Nat)) :
    List.Sorted (fun a b : String × Nat => digitsVal a.1.data ≤ digitsVal b.1.data)
      (sortNumericKeys l) := by
  induction l with
  | nil => simp [sortNumericKeys]
  | cons p rest ih =>
    simp only [sortNumericKeys]
    exact insertNumericKey_sorted p _ ih

/-- C10 counterexample: keywords first seen in the order math, 2024 (each
with count 1) are enumerated by the program with the array-index key 2024
first, so the tied entries of `topTopics` are not in first-seen order. -/
theorem claim_C10_counterexample :
    ((getUserStats [StudyEvent.mk ActionType.explain 0 0 ["math", "2024"] none none none none]
        0).topTopics = [TopicCount.mk "2024" 1, TopicCount.mk "math" 1]) ∧
    (firstSeenKeys [StudyEvent.mk ActionType.explain 0 0 ["math", "2024"] none none none none]
        = ["math", "2024"]) ∧
    ((getUserStats [StudyEvent.mk ActionType.explain 0 0 ["math", "2024"] none none none none]
        0).topTopics ≠ [TopicCount.mk "math" 1, TopicCount.mk "2024" 1]) := by
  have h1 : (getUserStats
      [StudyEvent.mk ActionType.explain 0 0 ["math", "2024"] none none none none] 0).topTopics
      = (((entriesOrder (topicCounts
          [StudyEvent.mk ActionType.explain 0 0 ["math", "2024"] none none none none])).map
            (fun p => TopicCount.mk p.1 p.2)).mergeSort
          (fun a b => decide (b.count ≤ a.count))).take 5 := rfl
  have h2 : entriesOrder (topicCounts
      [StudyEvent.mk ActionType.explain 0 0 ["math", "2024"] none none none none])
      = [("2024", 1), ("math", 1)] := by decide
  have hmain : (getUserStats
      [StudyEvent.mk ActionType.explain 0 0 ["math", "2024"] none none none none] 0).topTopics
      = [TopicCount.mk "2024" 1, TopicCount.mk "math" 1] := by
    rw [h1, h2]
    simp [List.mergeSort]
  refine ⟨hmain, by decide, ?_⟩
  rw [hmain]
  decide

/-- C10 (amended): `topTopics` is the first (up to) five entries of the
stable count-descending sort of the topic counts taken in `Object.entries`
enumeration order — array-index keywords first in ascending numeric order,
then the remaining keywords in first-seen order.  The accumulated keys are
the distinct trimmed, lowercased keywords in first-seen order with their
occurrence counts; the enumeration is a permutation of them whose
array-index segment is numerically sorted and whose remaining segment
preserves first-seen order; the ranking is count-descending; and the stable
sort preserves the relative enumeration order of entries with equal
counts. -/
theorem claim_C10_amended :
    (∀ (events : List StudyEvent) (now : Nat),
      (getUserStats events now).topTopics
        = (((entriesOrder (topicCounts events)).map (fun p => TopicCount.mk p.1 p.2)).mergeSort
            (fun a b => decide (b.count ≤ a.count))).take 5) ∧
    (∀ events : List StudyEvent,
      ((topicCounts events).map Prod.fst = firstSeenKeys events) ∧
      (∀ p ∈ topicCounts events, p.2 = (flatKeys events).count p.1)) ∧
    (∀ acc : List (String × Nat),
      (entriesOrder acc).Perm acc ∧
      List.Sorted (fun a b : String × Nat => digitsVal a.1.data ≤ digitsVal b.1.data)
        (sortNumericKeys (acc.filter (fun p => isArrayIndex p.1))) ∧
      (acc.filter (fun p => !(isArrayIndex p.1))).Sublist acc) ∧
    (∀ events : List StudyEvent,
      List.Sorted (fun a b : TopicCount => b.count ≤ a.count)
        (((entriesOrder (topicCounts events)).map (fun p => TopicCount.mk p.1 p.2)).mergeSort
          (fun a b => decide (b.count ≤ a.count)))) ∧
    (∀ (tc : List (String × Nat)) (a b : TopicCount),
      [a, b].Sublist (tc.map (fun p => TopicCount.mk p.1 p.2)) →
      a.count = b.count →
      [a, b].Sublist ((tc.map (fun p => TopicCount.mk p.1 p.2)).mergeSort
        (fun a b => decide (b.count ≤ a.count)))) := by
  have htrans : ∀ (a b c : TopicCount),
      (decide (b.count ≤ a.count)) = true → (decide (c.count ≤ b.count)) = true →
      (decide (c.count ≤ a.count)) = true := by
    intro a b c hab hbc
    simp only [decide_eq_true_eq] at *
    omega
  have htotal : ∀ (a b : TopicCount),
      ((decide (b.count ≤ a.count)) || (decide (a.count ≤ b.count))) = true := by
    intro a b
    simp only [Bool.or_eq_true, decide_eq_true_eq]
    omega
  refine ⟨fun events now => rfl, ?_, ?_, ?_, ?_⟩
  · intro events
    constructor
    · rw [topicCounts_eq, fold_bump_keys]
      rfl
    · intro p hp
      rw [topicCounts_eq] at hp
      have hnd : (((flatKeys events).foldl bumpTopic []).map Prod.fst).Nodup := by
        rw [fold_bump_keys]
        exact nodup_firstSeen_fold _ [] List.nodup_nil
      have h1 := keyCount_eq_of_mem _ hnd p hp
      have h2 := keyCount_fold (flatKeys events) [] p.1
      rw [← h1, h2]
      simp [keyCount]
  · intro acc
    refine ⟨?_, sortNumericKeys_sorted _, List.filter_sublist _⟩
    unfold entriesOrder
    exact (List.Perm.append (sortNumericKeys_perm _) (List.Perm.refl _)).trans
      (List.filter_append_perm _ acc)
  · intro events
    have h := @List.sorted_mergeSort TopicCount (fun a b => decide (b.count ≤ a.count))
      htrans htotal ((entriesOrder (topicCounts events)).map (fun p => TopicCount.mk p.1 p.2))
    exact h.imp (fun hab => of_decide_eq_true hab)
  · intro tc a b hsub hcount
    refine List.sublist_mergeSort htrans htotal ?_ hsub
    simp [List.pairwise_cons, hcount]

/-- C10 witness: for enumerated counts react→2, go→1, zulu→1 (go enumerated
before zulu), the tied entries go and zulu keep their enumeration order in
the sorted ranking. -/
theorem claim_C10_witness :
    [TopicCount.mk "go" 1, TopicCount.mk "zulu" 1].Sublist
      ((([("react", 2), ("go", 1), ("zulu", 1)] : List (String × Nat)).map
        (fun p => TopicCount.mk p.1 p.2)).mergeSort
        (fun a b => decide (b.count ≤ a.count))) :=
  claim_C10_amended.2.2.2.2 [("react", 2), ("go", 1), ("zulu", 1)]
    (TopicCount.mk "go" 1) (TopicCount.mk "zulu" 1) (by decide) (by decide)

end Learnivia
